import Mathlib

/-!
Shallow embedding of `docker_updater.py` (picode98/docker-compose-base-image-updater).

Strings are modelled as `List Char` (`Str`).  File contents, the Docker
daemon and subprocess outcomes are passed explicitly as parameters, so
every function of the source becomes a pure Lean function:

* `parse_image_name`            — line 11–13 of the source
* `get_base_images`             — line 15–26 (the file is passed as its list of lines)
* `update_image`                — line 28–36 (lookup result and pulled id passed in)
* `get_docker_compose_dep_images` — line 38–60 (YAML passed as parsed services,
  the filesystem as a map from paths to Dockerfile lines, `KeyError` as `Except`)
* `PreviousRunData.read` / `PreviousRunData.write` — line 68–79 (the filesystem as a
  map from paths to the parsed `builds_needed` array; a missing file is `none`)
* `run_updates`                 — line 82–123 (subprocess exits and durations and
  remote image ids supplied by an `Env`; the run also emits a trace of events)

Python `set` objects are modelled as duplicate-free `List Str` in some fixed
iteration order: `set(xs)` is `xs.dedup`, `s.add x` appends when absent,
`list(s)` is the list itself.
-/

abbrev Str := List Char

/-- `str.split(':', maxsplit=2)` restricted to one split: the part before the
first `sep` and, when a `sep` occurs, the remainder after it. -/
def splitOnce (sep : Char) : Str → Str × Option Str
  | [] => ([], none)
  | c :: rest =>
    if c = sep then ([], some rest)
    else
      let r := splitOnce sep rest
      (c :: r.1, r.2)

/-- Python `s.split(':', maxsplit=2)`: at most two splits, the third part keeps
any further colons. Always returns a non-empty list. -/
def pySplitColon2 (s : Str) : List Str :=
  match splitOnce ':' s with
  | (p0, none) => [p0]
  | (p0, some r0) =>
    match splitOnce ':' r0 with
    | (p1, none) => [p0, p1]
    | (p1, some r1) => [p0, p1, r1]

/-- Source line 11–13: `parse_image_name` splits on `:` with `maxsplit=2` and
returns `(parts[0], parts[1] if len(parts) >= 2 else 'latest')`. -/
def parse_image_name (image_name : Str) : Str × Str :=
  let image_name_parts := pySplitColon2 image_name
  (image_name_parts.headD [],
   if 2 ≤ image_name_parts.length then image_name_parts.getD 1 [] else "latest".data)

example : parse_image_name "redis:6".data = ("redis".data, "6".data) := by decide
example : parse_image_name "nginx".data = ("nginx".data, "latest".data) := by decide
example : parse_image_name "a:b:c:d".data = ("a".data, "b".data) := by decide
example : parse_image_name "a:".data = ("a".data, "".data) := by decide

/-- Python `\s` on the ASCII range: the whitespace class used by the
`FROM\s+(\S+).*` regex of source line 16. -/
def isPySpace (c : Char) : Bool :=
  c = ' ' || c = '\t' || c = '\n' || c = '\r' || c = '\x0b' || c = '\x0c'

/-- The literal `FROM` at the start of the line, case-insensitively (the regex
is compiled with `IGNORECASE` and applied with the anchored `regex.match`):
returns the rest of the line after the four keyword characters. -/
def matchFromKeyword : Str → Option Str
  | c1 :: c2 :: c3 :: c4 :: rest =>
    if (c1 = 'F' || c1 = 'f') && (c2 = 'R' || c2 = 'r') &&
       (c3 = 'O' || c3 = 'o') && (c4 = 'M' || c4 = 'm') then some rest else none
  | _ => none

/-- `regex.match` of `FROM\s+(\S+).*` (IGNORECASE) against one line: anchored at
the start, `\s+` greedily takes the whitespace run (at least one character),
`(\S+)` greedily captures the following non-whitespace run (at least one
character); `\S` and `\s` are disjoint so no backtracking changes the capture.
Returns the captured group. -/
def matchFromLine (l : Str) : Option Str :=
  match matchFromKeyword l with
  | none => none
  | some rest =>
    let ws := rest.takeWhile isPySpace
    let afterWs := rest.dropWhile isPySpace
    if ws.isEmpty then none
    else
      let tok := afterWs.takeWhile (fun c => !isPySpace c)
      if tok.isEmpty then none else some tok

/-- Source line 15–26: `get_base_images` — the opened Dockerfile is passed as
its list of lines (`readlines()`); every line on which the regex matches
contributes `parse_image_name` of the captured token, in file order. -/
def get_base_images (dockerfileLines : List Str) : List (Str × Str) :=
  dockerfileLines.filterMap (fun l => (matchFromLine l).map parse_image_name)

example : get_base_images ["FROM ubuntu:20.04\n".data, "from python:3.9".data] =
    [("ubuntu".data, "20.04".data), ("python".data, "3.9".data)] := by decide
example : get_base_images ["RUN ls\n".data, "FROMx y\n".data, " FROM a\n".data,
    "FROM \n".data, "FROM\n".data] = [] := by decide
example : get_base_images ["fRoM  alpine:3 AS base\n".data] =
    [("alpine".data, "3".data)] := by decide

/-- Result of `docker_client.images.get(name:tag)`: either the locally cached
image's id or the `docker.errors.ImageNotFound` exception. -/
inductive GetImageResult where
  | found (id : Str)
  | imageNotFound
deriving DecidableEq

/-- Source line 28–36: `update_image` — `existing_image_id` starts as `None`,
the `try` assigns the cached id and the `except docker.errors.ImageNotFound`
leaves it `None`; the image is then pulled (its id is `pulledId`) and the
function returns `existing_image_id != new_image.id` (`None` compares unequal
to any id). -/
def update_image (lookup : GetImageResult) (pulledId : Str) : Bool :=
  let existing_image_id : Option Str :=
    match lookup with
    | .found i => some i
    | .imageNotFound => none
  decide (existing_image_id ≠ some pulledId)

/-- A `build` stanza of a compose service: its optional `context` and optional
`dockerfile` keys (missing keys are `none`; `context` is read with `.get`,
`dockerfile` with `[...]` which raises `KeyError` when absent). -/
structure BuildStanza where
  context : Option Str
  dockerfile : Option Str
deriving DecidableEq

/-- A compose service: its optional `image` key and optional `build` stanza. -/
structure Service where
  image : Option Str
  build : Option BuildStanza
deriving DecidableEq

/-- `Path(p).parent` for POSIX paths, without normalization: the part before
the last slash, `.` when there is no slash, `/` for a top-level entry. -/
def pathParent (p : Str) : Str :=
  let pre := (p.reverse.dropWhile (fun c => !(c = '/'))).reverse
  match pre with
  | [] => ['.']
  | ['/'] => ['/']
  | _ => pre.dropLast

/-- `Path(a).joinpath(b)`: an absolute `b` replaces `a`, otherwise the two are
joined with a slash. -/
def pathJoin (a b : Str) : Str :=
  match b with
  | '/' :: _ => b
  | _ => a ++ '/' :: b

/-- Source line 55: `Path(path).parent.joinpath(context).joinpath(dockerfile)`.
The final `.resolve()` (normalization against the process cwd) is not
modelled; theorems quantify over the filesystem, so only determinism of the
resolved path matters. -/
def resolveDockerfile (composePath ctx df : Str) : Str :=
  pathJoin (pathJoin (pathParent composePath) ctx) df

/-- The loop of source line 47–58 over the `services` items, carrying the
accumulated `result_list` and `docker_compose_built_images`; a `KeyError`
(missing `image` key, or missing `dockerfile` key inside `build`) aborts the
whole call and is reported as `Except.error` with the missing key's name. -/
def depImagesLoop (fs : Str → List Str) (composePath : Str) :
    List (Str × Service) → List (Str × Str) → List Str →
    Except Str (List (Str × Str) × List Str)
  | [], result_list, built => .ok (result_list, built)
  | (_, svc) :: rest, result_list, built =>
    match svc.build with
    | some b =>
      match svc.image with
      | none => .error "image".data
      | some img =>
        let built' := built ++ [(parse_image_name img).1]
        let context_dir := b.context.getD ['.']
        match b.dockerfile with
        | none => .error "dockerfile".data
        | some df =>
          depImagesLoop fs composePath rest
            (result_list ++ get_base_images (fs (resolveDockerfile composePath context_dir df)))
            built'
    | none =>
      match svc.image with
      | none => .error "image".data
      | some img => depImagesLoop fs composePath rest (result_list ++ [parse_image_name img]) built

/-- Source line 38–60: `get_docker_compose_dep_images` — the opened compose
file is passed as its parsed `services` items in declaration order, and `fs`
maps a Dockerfile path to its lines; the accumulated list is finally filtered
to drop entries whose repository is among the locally built repositories. -/
def get_docker_compose_dep_images (fs : Str → List Str) (composePath : Str)
    (services : List (Str × Service)) : Except Str (List (Str × Str)) :=
  (depImagesLoop fs composePath services [] []).map
    (fun rb => rb.1.filter (fun r => !(decide (r.1 ∈ rb.2))))

/-- One service's contribution to the dependency list, following the spec's
section 4.3: a service with a `build` stanza contributes the base images of
its resolved Dockerfile, a service without one contributes its declared image. -/
def svcContrib (fs : Str → List Str) (composePath : Str) (s : Str × Service) :
    List (Str × Str) :=
  match s.2.build with
  | some b =>
    get_base_images (fs (resolveDockerfile composePath (b.context.getD ['.'])
      (b.dockerfile.getD [])))
  | none => [parse_image_name (s.2.image.getD [])]

/-- The locally built repository a service records, when it has a `build`
stanza: the repository of its declared image. -/
def svcBuiltRepo (s : Str × Service) : Option Str :=
  if s.2.build.isSome then some (parse_image_name (s.2.image.getD [])).1 else none

/-- Modelled from the spec's words (section 4.3 final-output sentence), for
comparison with `get_docker_compose_dep_images`: collect the locally built
repositories in one pass, collect every service's contribution in declaration
order in a second pass, then filter. -/
def specComposeDepImages (fs : Str → List Str) (composePath : Str)
    (services : List (Str × Service)) : List (Str × Str) :=
  let built := services.filterMap svcBuiltRepo
  (services.flatMap (svcContrib fs composePath)).filter (fun r => !(decide (r.1 ∈ built)))

/-- Every service has an `image` key, and every `build` stanza a `dockerfile`
key: the well-formedness under which `get_docker_compose_dep_images` cannot
raise `KeyError`. -/
def servicesWellFormed (services : List (Str × Service)) : Bool :=
  services.all (fun s => s.2.image.isSome &&
    (match s.2.build with
     | some b => b.dockerfile.isSome
     | none => true))

/-- Source line 72–75: `PreviousRunData.read` — `fs` maps a path to the
`builds_needed` array of the JSON object stored there (`none` when the file
does not exist, in which case `open` raises `FileNotFoundError`, reported as
`Except.error`); on success the in-memory set becomes `set(arr)`. -/
def PreviousRunData.read (fs : Str → Option (List Str)) (path : Str) :
    Except Unit (List Str) :=
  match fs path with
  | none => .error ()
  | some arr => .ok arr.dedup

/-- Source line 77–79: `PreviousRunData.write` — overwrites the file at `path`
with a JSON object whose `builds_needed` array is `list(s)`. -/
def PreviousRunData.write (fs : Str → Option (List Str)) (path : Str)
    (s : List Str) : Str → Option (List Str) :=
  fun q => if q = path then some s else fs q

/-- Source line 85–89 of `run_updates`: a fresh `PreviousRunData` (empty set),
`read` attempted, `FileNotFoundError` caught and ignored — so the initial
in-memory pending set is the file's deduplicated array, or empty when the
file does not exist. -/
def initialLoad (fs : Str → Option (List Str)) (path : Str) : List Str :=
  match PreviousRunData.read fs path with
  | .error _ => []
  | .ok s => s

/-- Source line 62–66: `DockerComposeApp` — its compose file path, the list of
`(repository, tag)` pairs to pull, and the build timeout (default 7200). The
constructor's fallback to `get_docker_compose_dep_images` is applied before
`run_updates` is called, so the list is stored here already computed. -/
structure DockerComposeApp where
  compose_file_path : Str
  images_to_pull : List (Str × Str)
  build_timeout : Nat := 7200

/-- Outcome data of one external command: how long it ran and its exit code. -/
structure CmdRes where
  duration : Nat
  exitCode : Nat
deriving DecidableEq

/-- The three subprocess outcomes for one application's compose directory:
`docker-compose build`, `docker-compose stop`,
`docker-compose up --detach --force-recreate`. -/
structure AppExec where
  buildRes : CmdRes
  stopRes : CmdRes
  startRes : CmdRes
deriving DecidableEq

/-- The ambient world of a run: the id an image pull returns for each
`(repository, tag)` (the registry is assumed stable during the run), and the
subprocess outcomes for each compose file path. -/
structure Env where
  remote : Str → Str → Str
  execFor : Str → AppExec

/-- Mutable state of `run_updates`: the Docker daemon's local image cache,
the in-memory pending-build set (`previous_image_builds_needed`), and the
filesystem holding the state file (as in `PreviousRunData.read`). -/
structure OrchSt where
  localImages : Str → Str → Option Str
  pending : List Str
  fs : Str → Option (List Str)

/-- Observable actions of the orchestrator, in order of occurrence: an image
pull (with whether it reported a change), a write of the state file (with the
`builds_needed` contents written), and the three subprocess invocations. -/
inductive Event where
  | pullImage (name tag : Str) (updated : Bool)
  | writeState (contents : List Str)
  | execBuild (path : Str)
  | execStop (path : Str)
  | execStart (path : Str)
deriving DecidableEq

/-- Source line 83: `prev_run_path = 'previous_run.json'`. -/
def prev_run_path : Str := "previous_run.json".data

/-- Python `set.add` on the list model: append when absent. -/
def setAdd (s : List Str) (x : Str) : List Str :=
  if x ∈ s then s else s ++ [x]

/-- `subprocess.check_call` with an optional timeout: exceeding the timeout
raises `TimeoutExpired` (the process is killed first, so this takes precedence
over the exit code), a non-zero exit raises `CalledProcessError`. -/
inductive CallErr where
  | calledProcessError
  | timeoutExpired
deriving DecidableEq

/-- See `CallErr`. -/
def check_call (res : CmdRes) (timeout : Option Nat) : Except CallErr Unit :=
  match timeout with
  | some t =>
    if t < res.duration then .error .timeoutExpired
    else if res.exitCode = 0 then .ok () else .error .calledProcessError
  | none => if res.exitCode = 0 then .ok () else .error .calledProcessError

/-- Source line 108–116: the `try` block — `build` with the application's
timeout, then `stop`, then `up --detach --force-recreate`, both without a
timeout; the first raised `CalledProcessError` or `TimeoutExpired` leaves the
block with `build_success = False` and the remaining calls unattempted.
Returns `build_success` and the invocations that were attempted, in order. -/
def buildSequence (ex : AppExec) (path : Str) (timeout : Nat) : Bool × List Event :=
  match check_call ex.buildRes (some timeout) with
  | .error _ => (false, [.execBuild path])
  | .ok _ =>
    match check_call ex.stopRes none with
    | .error _ => (false, [.execBuild path, .execStop path])
    | .ok _ =>
      match check_call ex.startRes none with
      | .error _ => (false, [.execBuild path, .execStop path, .execStart path])
      | .ok _ => (true, [.execBuild path, .execStop path, .execStart path])

/-- Source line 104–106: if the compose path is not yet in the pending set,
add it and persist the set immediately. -/
def markPending (st : OrchSt) (path : Str) : OrchSt × List Event :=
  if path ∈ st.pending then (st, [])
  else
    let p2 := setAdd st.pending path
    ({ st with pending := p2, fs := PreviousRunData.write st.fs prev_run_path p2 },
     [Event.writeState p2])

/-- Source line 92–98: the per-image loop — each `(name, tag)` is looked up in
the local cache, pulled (the cache then holds the remote id), and
`any_image_updated = any_image_updated if any_image_updated else this` folds
the per-image results together. Returns the new cache, the fold result, and
the pull events in order. -/
def processImages (env : Env) : (Str → Str → Option Str) → Bool → List (Str × Str) →
    (Str → Str → Option Str) × Bool × List Event
  | cache, any_image_updated, [] => (cache, any_image_updated, [])
  | cache, any_image_updated, (n, t) :: rest =>
    let lookup : GetImageResult :=
      match cache n t with
      | some i => .found i
      | none => .imageNotFound
    let pulledId := env.remote n t
    let this_image_updated := update_image lookup pulledId
    let any2 := if any_image_updated then any_image_updated else this_image_updated
    let cache2 : Str → Str → Option Str :=
      fun n2 t2 => if n2 = n && t2 = t then some pulledId else cache n2 t2
    let r := processImages env cache2 any2 rest
    (r.1, r.2.1, Event.pullImage n t this_image_updated :: r.2.2)

/-- Source line 91–123: the body of the per-application loop of `run_updates`:
pull all images, and when any changed or the path is carried over in the
pending set, mark pending (persisting), run the build sequence, and on success
remove the path from the pending set and persist. -/
def processApp (env : Env) (st : OrchSt) (app : DockerComposeApp) : OrchSt × List Event :=
  let pr := processImages env st.localImages false app.images_to_pull
  let st1 : OrchSt := { st with localImages := pr.1 }
  if pr.2.1 || decide (app.compose_file_path ∈ st.pending) then
    let m := markPending st1 app.compose_file_path
    let bs := buildSequence (env.execFor app.compose_file_path) app.compose_file_path
      app.build_timeout
    if bs.1 then
      let p2 := (m.1).pending.erase app.compose_file_path
      ({ m.1 with pending := p2, fs := PreviousRunData.write (m.1).fs prev_run_path p2 },
       pr.2.2 ++ m.2 ++ bs.2 ++ [Event.writeState p2])
    else
      (m.1, pr.2.2 ++ m.2 ++ bs.2)
  else
    (st1, pr.2.2)

/-- The `for this_app in docker_compose_apps` loop of source line 91. -/
def runUpdatesLoop (env : Env) : OrchSt → List DockerComposeApp → OrchSt × List Event
  | st, [] => (st, [])
  | st, app :: rest =>
    let r := processApp env st app
    let r2 := runUpdatesLoop env r.1 rest
    (r2.1, r.2 ++ r2.2)

/-- Source line 82–123: `run_updates` — load the previous run's pending set
(empty when the state file is missing), then process every application in
order. -/
def run_updates (env : Env) (localImgs : Str → Str → Option Str)
    (fs0 : Str → Option (List Str)) (apps : List DockerComposeApp) :
    OrchSt × List Event :=
  runUpdatesLoop env
    { localImages := localImgs, pending := initialLoad fs0 prev_run_path, fs := fs0 } apps

/-- The fold of the per-image update results for one application, from the
state `st` (source line 92–95). -/
def anyImagesUpdated (env : Env) (st : OrchSt) (app : DockerComposeApp) : Bool :=
  (processImages env st.localImages false app.images_to_pull).2.1

/-- The trigger condition of source line 100: some image updated, or the path
carried over in the pending set. -/
def appTriggered (env : Env) (st : OrchSt) (app : DockerComposeApp) : Bool :=
  anyImagesUpdated env st app || decide (app.compose_file_path ∈ st.pending)

/-- Whether the build/stop/start sequence for `app` succeeds under `env`. -/
def appBuildSuccess (env : Env) (app : DockerComposeApp) : Bool :=
  (buildSequence (env.execFor app.compose_file_path) app.compose_file_path
    app.build_timeout).1

/-- The persistence invariant of the orchestrator state: the in-memory pending
set is duplicate-free and has the same members as the `builds_needed` array
stored in the state file (an absent file standing for the empty array). -/
def PendingInv (st : OrchSt) : Prop :=
  st.pending.Nodup ∧ ∀ x, x ∈ st.pending ↔ x ∈ (st.fs prev_run_path).getD []

/-- The orchestrator state right after the mark-pending step (source line
104–106) for one application: images pulled, path marked pending and the set
persisted — the state from which the build/stop/start sequence is attempted. -/
def postMark (env : Env) (st : OrchSt) (app : DockerComposeApp) : OrchSt :=
  (markPending
    { st with localImages := (processImages env st.localImages false app.images_to_pull).1 }
    app.compose_file_path).1

/-- Example filesystem for the compose-resolver example: every Dockerfile
read yields one `FROM ubuntu:20.04` line. -/
def exC4fs : Str → List Str := fun _ => ["FROM ubuntu:20.04".data]

/-- Example compose-file path. -/
def exC4path : Str := "/proj/docker-compose.yml".data

/-- The spec's example: service `web` has `image: myapp:latest` and a `build`
stanza, service `db` has `image: postgres:13` and none. -/
def exC4services : List (Str × Service) :=
  [("web".data,
    { image := some "myapp:latest".data,
      build := some { context := none, dockerfile := some "Dockerfile".data } }),
   ("db".data, { image := some "postgres:13".data, build := none })]

/-- Example subprocess outcomes: the build succeeds quickly, `stop` exits 1,
`start` would succeed. -/
def exC9 : AppExec :=
  { buildRes := { duration := 10, exitCode := 0 },
    stopRes := { duration := 0, exitCode := 1 },
    startRes := { duration := 0, exitCode := 0 } }

/-- Example environment where every pull returns id `id1` and every
subprocess succeeds instantly. -/
def exEnv : Env :=
  { remote := fun _ _ => "id1".data,
    execFor := fun _ =>
      { buildRes := { duration := 5, exitCode := 0 },
        stopRes := { duration := 0, exitCode := 0 },
        startRes := { duration := 0, exitCode := 0 } } }

/-- Example state whose local cache already holds `id1` for every image, with
no pending builds and no state file. -/
def exStCached : OrchSt :=
  { localImages := fun _ _ => some "id1".data, pending := [], fs := fun _ => none }

/-- Example state with an empty local cache (every pull reports a change),
no pending builds and no state file. -/
def exStEmpty : OrchSt :=
  { localImages := fun _ _ => none, pending := [], fs := fun _ => none }

/-- Example application pulling `redis:6`. -/
def exApp : DockerComposeApp :=
  { compose_file_path := "/a/docker-compose.yml".data,
    images_to_pull := [("redis".data, "6".data)] }

theorem splitOnce_eq_of_not_mem (sep : Char) :
    ∀ s : Str, sep ∉ s → splitOnce sep s = (s, none) := by
  intro s h
  induction s with
  | nil => rfl
  | cons c rest ih =>
    simp only [List.mem_cons, not_or] at h
    have hc : ¬c = sep := fun hcc => h.1 hcc.symm
    simp only [splitOnce, if_neg hc, ih h.2]

theorem splitOnce_append (sep : Char) :
    ∀ a b : Str, sep ∉ a → splitOnce sep (a ++ sep :: b) = (a, some b) := by
  intro a
  induction a with
  | nil => intro b _; simp [splitOnce]
  | cons c rest ih =>
    intro b h
    simp only [List.mem_cons, not_or] at h
    have hc : ¬c = sep := fun hcc => h.1 hcc.symm
    simp only [List.cons_append, splitOnce, if_neg hc, List.append_eq, ih b h.2]

/-- C2: `parse_image_name` splits a string with exactly one colon at that
colon; with no colon the repository is the whole string and the tag is
`latest`; with more than one colon the result keeps only the first two
colon-separated parts; and the function is total, so no input raises. -/
theorem c2_parse_image_name (s : Str) :
    (':' ∉ s → parse_image_name s = (s, "latest".data)) ∧
    (∀ a b : Str, ':' ∉ a → ':' ∉ b → s = a ++ ':' :: b →
      parse_image_name s = (a, b)) ∧
    (∀ a b c : Str, ':' ∉ a → ':' ∉ b → s = a ++ ':' :: (b ++ ':' :: c) →
      parse_image_name s = (a, b)) := by
  refine ⟨?_, ?_, ?_⟩
  · intro h
    simp [parse_image_name, pySplitColon2, splitOnce_eq_of_not_mem ':' s h]
  · rintro a b ha hb rfl
    simp [parse_image_name, pySplitColon2, splitOnce_append ':' a b ha,
      splitOnce_eq_of_not_mem ':' b hb]
  · rintro a b c ha hb rfl
    simp [parse_image_name, pySplitColon2, splitOnce_append ':' a _ ha,
      splitOnce_append ':' b c hb]

theorem c2_parse_image_name_witness :
    parse_image_name "redis:6".data = ("redis".data, "6".data) ∧
    parse_image_name "nginx".data = ("nginx".data, "latest".data) ∧
    parse_image_name "a:b:c".data = ("a".data, "b".data) :=
  ⟨(c2_parse_image_name "redis:6".data).2.1 "redis".data "6".data
      (by decide) (by decide) (by decide),
   (c2_parse_image_name "nginx".data).1 (by decide),
   (c2_parse_image_name "a:b:c".data).2.2 "a".data "b".data "c".data
      (by decide) (by decide) (by decide)⟩

/-- C5: `update_image` treats a missing local image as "no prior image"
rather than an error, and returns `true` exactly when no prior local image
existed or the pulled image's id differs from the prior local id. -/
theorem c5_update_image (lookup : GetImageResult) (pulledId : Str) :
    update_image lookup pulledId = true ↔
      (lookup = GetImageResult.imageNotFound ∨
       ∃ i, lookup = GetImageResult.found i ∧ i ≠ pulledId) := by
  cases lookup with
  | found i => simp [update_image]
  | imageNotFound => simp [update_image]

/-- C7: run-state persistence round-trips — writing the in-memory pending set
and reading the file back yields the identical set. -/
theorem c7_round_trip (fs : Str → Option (List Str)) (path : Str)
    (s : List Str) (h : s.Nodup) :
    PreviousRunData.read (PreviousRunData.write fs path s) path = .ok s := by
  simp [PreviousRunData.read, PreviousRunData.write, List.dedup_eq_self.mpr h]

theorem c7_round_trip_witness :
    PreviousRunData.read
      (PreviousRunData.write (fun _ => none) prev_run_path
        ["/a/docker-compose.yml".data])
      prev_run_path = .ok ["/a/docker-compose.yml".data] :=
  c7_round_trip (fun _ => none) prev_run_path ["/a/docker-compose.yml".data] (by decide)

/-- C6 counterexample: `PreviousRunData.read` on a filesystem with no file at
`previous_run.json` does not fail silently — it raises (`FileNotFoundError`,
modelled as `Except.error`); the silent recovery lives in `run_updates`. -/
theorem c6_read_missing_raises :
    PreviousRunData.read (fun _ => none) prev_run_path = .error () := rfl

/-- C6 (amended): when the file exists, `read` loads the `builds_needed`
array into the in-memory set; when it does not, `read` raises
`FileNotFoundError`, and the orchestrator's `try`/`except` around the initial
load catches it and leaves the in-memory set empty. -/
theorem c6_read_behaviour (fs : Str → Option (List Str)) (path : Str) :
    (fs path = none →
      PreviousRunData.read fs path = .error () ∧ initialLoad fs path = []) ∧
    (∀ arr, fs path = some arr →
      PreviousRunData.read fs path = .ok arr.dedup ∧
      initialLoad fs path = arr.dedup) := by
  constructor
  · intro h
    constructor <;> simp [PreviousRunData.read, initialLoad, h]
  · intro arr h
    constructor <;> simp [PreviousRunData.read, initialLoad, h]

theorem c6_read_behaviour_witness :
    PreviousRunData.read (fun _ => none) prev_run_path = .error () ∧
    initialLoad (fun _ => none) prev_run_path = [] :=
  (c6_read_behaviour (fun _ => none) prev_run_path).1 rfl

theorem depImagesLoop_error_of_bad (fs : Str → List Str) (p : Str) :
    ∀ (svcs : List (Str × Service)) (res : List (Str × Str)) (built : List Str),
      (∃ n svc, (n, svc) ∈ svcs ∧ svc.build.isSome = true ∧
        (svc.image = none ∨ ∃ b, svc.build = some b ∧ b.dockerfile = none)) →
      ∃ e, depImagesLoop fs p svcs res built = .error e := by
  intro svcs
  induction svcs with
  | nil => rintro res built ⟨n, svc, h, -⟩; cases h
  | cons hd tl ih =>
    rintro res built ⟨n, svc, hmem, hbuild, hbad⟩
    rcases List.mem_cons.mp hmem with heq | htl
    · subst heq
      rcases hbad with himg | ⟨b, hb, hdf⟩
      · cases hb : svc.build with
        | none => simp [hb] at hbuild
        | some b =>
          exact ⟨"image".data, by simp only [depImagesLoop, hb, himg]⟩
      · cases himg : svc.image with
        | none =>
          exact ⟨"image".data, by simp only [depImagesLoop, hb, himg]⟩
        | some img =>
          exact ⟨"dockerfile".data, by simp only [depImagesLoop, hb, himg, hdf]⟩
    · obtain ⟨nm, sv⟩ := hd
      cases hb : sv.build with
      | some b =>
        cases himg : sv.image with
        | none => exact ⟨"image".data, by simp only [depImagesLoop, hb, himg]⟩
        | some img =>
          cases hdf : b.dockerfile with
          | none => exact ⟨"dockerfile".data, by simp only [depImagesLoop, hb, himg, hdf]⟩
          | some df =>
            obtain ⟨e, he⟩ := ih _ _ ⟨n, svc, htl, hbuild, hbad⟩
            exact ⟨e, by simp only [depImagesLoop, hb, himg, hdf]; exact he⟩
      | none =>
        cases himg : sv.image with
        | none => exact ⟨"image".data, by simp only [depImagesLoop, hb, himg]⟩
        | some img =>
          obtain ⟨e, he⟩ := ih _ _ ⟨n, svc, htl, hbuild, hbad⟩
          exact ⟨e, by simp only [depImagesLoop, hb, himg]; exact he⟩

/-- C10: a service carrying a `build` stanza but lacking the `image` key, or
whose `build` stanza lacks the `dockerfile` key, makes
`get_docker_compose_dep_images` raise a lookup error (`KeyError`) that
propagates to the caller — no skipping, no default. -/
theorem c10_missing_keys (fs : Str → List Str) (p : Str)
    (services : List (Str × Service)) (n : Str) (svc : Service)
    (hmem : (n, svc) ∈ services) (hbuild : svc.build.isSome = true)
    (hbad : svc.image = none ∨ ∃ b, svc.build = some b ∧ b.dockerfile = none) :
    ∃ e, get_docker_compose_dep_images fs p services = .error e := by
  obtain ⟨e, he⟩ := depImagesLoop_error_of_bad fs p services [] []
    ⟨n, svc, hmem, hbuild, hbad⟩
  exact ⟨e, by simp only [get_docker_compose_dep_images, he, Except.map]⟩

theorem c10_missing_keys_witness :
    ∃ e, get_docker_compose_dep_images (fun _ => [])
      "/proj/docker-compose.yml".data
      [("web".data,
        { image := none,
          build := some { context := none, dockerfile := some "Dockerfile".data } })]
      = .error e :=
  c10_missing_keys (fun _ => []) "/proj/docker-compose.yml".data _ "web".data
    { image := none,
      build := some { context := none, dockerfile := some "Dockerfile".data } }
    (by simp) rfl (Or.inl rfl)

theorem dropWhile_head_false (p : Char → Bool) :
    ∀ (l : Str) (c : Char) (t : Str), l.dropWhile p = c :: t → p c = false := by
  intro l
  induction l with
  | nil => intro c t h; cases h
  | cons a l ih =>
    intro c t h
    rw [List.dropWhile_cons] at h
    by_cases ha : p a = true
    · rw [if_pos ha] at h; exact ih c t h
    · rw [if_neg ha] at h
      injection h with h1 _
      subst h1
      exact eq_false_of_ne_true ha

theorem takeWhile_append_spec (p : Char → Bool) :
    ∀ w rest : Str, (∀ c ∈ w, p c = true) →
      (rest = [] ∨ ∃ c t, rest = c :: t ∧ p c = false) →
      (w ++ rest).takeWhile p = w ∧ (w ++ rest).dropWhile p = rest := by
  intro w
  induction w with
  | nil =>
    intro rest _ hr
    rcases hr with rfl | ⟨c, t, rfl, hc⟩
    · exact ⟨rfl, rfl⟩
    · constructor
      · simp [List.takeWhile_cons, hc]
      · simp [List.dropWhile_cons, hc]
  | cons a w ih =>
    intro rest hw hr
    have ha : p a = true := hw a (List.mem_cons_self a w)
    have hrec := ih rest (fun c hc => hw c (List.mem_cons_of_mem a hc)) hr
    constructor
    · simp [List.takeWhile_cons, ha, hrec.1]
    · simp [List.dropWhile_cons, ha, hrec.2]

theorem matchFromKeyword_eq_some (l r : Str) :
    matchFromKeyword l = some r ↔
      ∃ c1 c2 c3 c4, l = c1 :: c2 :: c3 :: c4 :: r ∧
        (c1 = 'F' ∨ c1 = 'f') ∧ (c2 = 'R' ∨ c2 = 'r') ∧
        (c3 = 'O' ∨ c3 = 'o') ∧ (c4 = 'M' ∨ c4 = 'm') := by
  constructor
  · intro h
    rcases l with _ | ⟨c1, l⟩; · cases h
    rcases l with _ | ⟨c2, l⟩; · cases h
    rcases l with _ | ⟨c3, l⟩; · cases h
    rcases l with _ | ⟨c4, l⟩; · cases h
    simp only [matchFromKeyword] at h
    by_cases hc : ((c1 = 'F' || c1 = 'f') && (c2 = 'R' || c2 = 'r') &&
        (c3 = 'O' || c3 = 'o') && (c4 = 'M' || c4 = 'm')) = true
    · rw [if_pos hc] at h
      injection h with h1
      subst h1
      simp only [Bool.and_eq_true, Bool.or_eq_true, decide_eq_true_eq] at hc
      exact ⟨c1, c2, c3, c4, rfl, hc.1.1.1, hc.1.1.2, hc.1.2, hc.2⟩
    · rw [if_neg hc] at h; cases h
  · rintro ⟨c1, c2, c3, c4, rfl, h1, h2, h3, h4⟩
    have hc : ((c1 = 'F' || c1 = 'f') && (c2 = 'R' || c2 = 'r') &&
        (c3 = 'O' || c3 = 'o') && (c4 = 'M' || c4 = 'm')) = true := by
      simp only [Bool.and_eq_true, Bool.or_eq_true, decide_eq_true_eq]
      exact ⟨⟨⟨h1, h2⟩, h3⟩, h4⟩
    simp only [matchFromKeyword, if_pos hc]

theorem matchFromLine_eq_some (l tok : Str) :
    matchFromLine l = some tok ↔
      ∃ c1 c2 c3 c4 ws rest,
        l = c1 :: c2 :: c3 :: c4 :: (ws ++ (tok ++ rest)) ∧
        (c1 = 'F' ∨ c1 = 'f') ∧ (c2 = 'R' ∨ c2 = 'r') ∧
        (c3 = 'O' ∨ c3 = 'o') ∧ (c4 = 'M' ∨ c4 = 'm') ∧
        ws ≠ [] ∧ (∀ c ∈ ws, isPySpace c = true) ∧
        tok ≠ [] ∧ (∀ c ∈ tok, isPySpace c = false) ∧
        (rest = [] ∨ ∃ c t, rest = c :: t ∧ isPySpace c = true) := by
  constructor
  · intro h
    cases hk : matchFromKeyword l with
    | none => simp only [matchFromLine, hk] at h; cases h
    | some r =>
      simp only [matchFromLine, hk] at h
      by_cases hws : (r.takeWhile isPySpace).isEmpty = true
      · rw [if_pos hws] at h; cases h
      · rw [if_neg hws] at h
        by_cases htk :
            (((r.dropWhile isPySpace).takeWhile fun c => !isPySpace c)).isEmpty = true
        · rw [if_pos htk] at h; cases h
        · rw [if_neg htk] at h
          injection h with h1
          obtain ⟨c1, c2, c3, c4, rfl, h1', h2', h3', h4'⟩ :=
            (matchFromKeyword_eq_some l r).mp hk
          refine ⟨c1, c2, c3, c4, r.takeWhile isPySpace,
            (r.dropWhile isPySpace).dropWhile (fun c => !isPySpace c),
            ?_, h1', h2', h3', h4', ?_, ?_, ?_, ?_, ?_⟩
          · subst h1
            rw [List.takeWhile_append_dropWhile, List.takeWhile_append_dropWhile]
          · intro he; rw [he] at hws; exact hws rfl
          · exact fun c hc => List.mem_takeWhile_imp hc
          · subst h1; intro he; rw [he] at htk; exact htk rfl
          · subst h1
            intro c hc
            have := List.mem_takeWhile_imp hc
            simpa using this
          · cases hrest : (r.dropWhile isPySpace).dropWhile (fun c => !isPySpace c) with
            | nil => exact Or.inl rfl
            | cons c t =>
              refine Or.inr ⟨c, t, rfl, ?_⟩
              have := dropWhile_head_false (fun c => !isPySpace c) _ c t hrest
              simpa using this
  · rintro ⟨c1, c2, c3, c4, ws, rest, rfl, h1, h2, h3, h4, hwsne, hws, htokne, htok, hrest⟩
    have hk : matchFromKeyword (c1 :: c2 :: c3 :: c4 :: (ws ++ (tok ++ rest))) =
        some (ws ++ (tok ++ rest)) :=
      (matchFromKeyword_eq_some _ _).mpr ⟨c1, c2, c3, c4, rfl, h1, h2, h3, h4⟩
    have hheadcond : tok ++ rest = [] ∨ ∃ c t, tok ++ rest = c :: t ∧ isPySpace c = false := by
      cases tok with
      | nil => exact absurd rfl htokne
      | cons c t =>
        exact Or.inr ⟨c, t ++ rest, rfl, htok c (List.mem_cons_self c t)⟩
    have hspan1 := takeWhile_append_spec isPySpace ws (tok ++ rest) hws hheadcond
    have hspan2 := takeWhile_append_spec (fun c => !isPySpace c) tok rest
      (fun c hc => by simp [htok c hc])
      (by
        rcases hrest with rfl | ⟨c, t, rfl, hc⟩
        · exact Or.inl rfl
        · exact Or.inr ⟨c, t, rfl, by simp [hc]⟩)
    have hwsne2 : (ws ++ (tok ++ rest)).takeWhile isPySpace ≠ [] := by
      rw [hspan1.1]; exact hwsne
    simp only [matchFromLine, hk, hspan1.1, hspan1.2, hspan2.1]
    rw [if_neg (by simpa [List.isEmpty_iff] using hwsne)]
    rw [if_neg (by simpa [List.isEmpty_iff] using htokne)]

/-- C3: a line contributes to `get_base_images` exactly when it begins,
case-insensitively, with the `FROM` keyword followed by at least one
whitespace character and a maximal non-empty non-whitespace token (anything
may follow); matching lines contribute `parse_image_name` of that token in
file order, non-matching lines contribute nothing, and the mixed-case
two-line example from the spec yields its two parsed images. -/
theorem c3_get_base_images :
    (∀ l tok : Str,
      matchFromLine l = some tok ↔
        ∃ c1 c2 c3 c4 ws rest,
          l = c1 :: c2 :: c3 :: c4 :: (ws ++ (tok ++ rest)) ∧
          (c1 = 'F' ∨ c1 = 'f') ∧ (c2 = 'R' ∨ c2 = 'r') ∧
          (c3 = 'O' ∨ c3 = 'o') ∧ (c4 = 'M' ∨ c4 = 'm') ∧
          ws ≠ [] ∧ (∀ c ∈ ws, isPySpace c = true) ∧
          tok ≠ [] ∧ (∀ c ∈ tok, isPySpace c = false) ∧
          (rest = [] ∨ ∃ c t, rest = c :: t ∧ isPySpace c = true)) ∧
    (∀ (l : Str) (ls : List Str),
      (matchFromLine l = none → get_base_images (l :: ls) = get_base_images ls) ∧
      (∀ tok, matchFromLine l = some tok →
        get_base_images (l :: ls) = parse_image_name tok :: get_base_images ls)) ∧
    get_base_images ["FROM ubuntu:20.04".data, "from python:3.9".data] =
      [("ubuntu".data, "20.04".data), ("python".data, "3.9".data)] := by
  refine ⟨matchFromLine_eq_some, ?_, by decide⟩
  intro l ls
  constructor
  · intro h; simp [get_base_images, h]
  · intro tok h; simp [get_base_images, h]

theorem c3_get_base_images_witness :
    matchFromLine "FROM ubuntu:20.04".data = some "ubuntu:20.04".data ∧
    get_base_images ["hello".data, "FROM redis:6".data] =
      parse_image_name "redis:6".data :: get_base_images [] := by
  constructor
  · exact (c3_get_base_images.1 "FROM ubuntu:20.04".data "ubuntu:20.04".data).mpr
      ⟨'F', 'R', 'O', 'M', [' '], [], by decide, by decide, by decide, by decide,
       by decide, by decide, by decide, by decide, by decide, Or.inl rfl⟩
  · exact ((c3_get_base_images.2.1 "hello".data ["FROM redis:6".data]).1 (by rfl)).trans
      ((c3_get_base_images.2.1 "FROM redis:6".data []).2 "redis:6".data (by rfl))

theorem depImagesLoop_ok (fs : Str → List Str) (p : Str) :
    ∀ (svcs : List (Str × Service)) (res : List (Str × Str)) (built : List Str),
      servicesWellFormed svcs = true →
      depImagesLoop fs p svcs res built =
        .ok (res ++ svcs.flatMap (svcContrib fs p), built ++ svcs.filterMap svcBuiltRepo) := by
  intro svcs
  induction svcs with
  | nil => intro res built _; simp [depImagesLoop]
  | cons hd tl ih =>
    intro res built hwf
    obtain ⟨nm, sv⟩ := hd
    simp only [servicesWellFormed, List.all_cons, Bool.and_eq_true] at hwf
    obtain ⟨⟨himg, hbuildwf⟩, htl⟩ := hwf
    cases himg2 : sv.image with
    | none => rw [himg2] at himg; cases himg
    | some img =>
      cases hb : sv.build with
      | none =>
        simp only [depImagesLoop, hb, himg2]
        rw [ih _ _ htl]
        simp [List.flatMap_cons, svcContrib, hb, himg2, List.filterMap_cons,
          svcBuiltRepo, List.append_assoc]
      | some b =>
        simp only [hb] at hbuildwf
        cases hdf : b.dockerfile with
        | none => rw [hdf] at hbuildwf; cases hbuildwf
        | some df =>
          simp only [depImagesLoop, hb, himg2, hdf]
          rw [ih _ _ htl]
          simp [List.flatMap_cons, svcContrib, hb, himg2, hdf, List.filterMap_cons,
            svcBuiltRepo, List.append_assoc]

/-- C4: when every service declares an image and every `build` stanza a
dockerfile, `get_docker_compose_dep_images` succeeds and equals the
spec-level two-pass description: services contribute in declaration order —
the declared image for services without `build`, the context-resolved
Dockerfile's base images for services with `build` — and the final list
excludes every image whose repository equals a locally built service's
declared repository. -/
theorem c4_compose_dep_images (fs : Str → List Str) (p : Str)
    (services : List (Str × Service)) (h : servicesWellFormed services = true) :
    get_docker_compose_dep_images fs p services =
      .ok (specComposeDepImages fs p services) := by
  have hk := depImagesLoop_ok fs p services [] [] h
  simp only [get_docker_compose_dep_images, hk, Except.map, specComposeDepImages,
    List.nil_append]

theorem c4_compose_dep_images_witness :
    get_docker_compose_dep_images exC4fs exC4path exC4services =
      .ok (specComposeDepImages exC4fs exC4path exC4services) ∧
    specComposeDepImages exC4fs exC4path exC4services =
      [("ubuntu".data, "20.04".data), ("postgres".data, "13".data)] :=
  ⟨c4_compose_dep_images exC4fs exC4path exC4services (by decide), by decide⟩

theorem buildSequence_eq (ex : AppExec) (path : Str) (t : Nat) :
    buildSequence ex path t =
      if t < ex.buildRes.duration ∨ ex.buildRes.exitCode ≠ 0 then
        (false, [Event.execBuild path])
      else if ex.stopRes.exitCode ≠ 0 then
        (false, [Event.execBuild path, Event.execStop path])
      else if ex.startRes.exitCode ≠ 0 then
        (false, [Event.execBuild path, Event.execStop path, Event.execStart path])
      else
        (true, [Event.execBuild path, Event.execStop path, Event.execStart path]) := by
  by_cases ht : t < ex.buildRes.duration
  · simp [buildSequence, check_call, ht]
  · by_cases hbe : ex.buildRes.exitCode = 0
    · by_cases hse : ex.stopRes.exitCode = 0
      · by_cases hste : ex.startRes.exitCode = 0
        · simp [buildSequence, check_call, ht, hbe, hse, hste]
        · simp [buildSequence, check_call, ht, hbe, hse, hste]
      · simp [buildSequence, check_call, ht, hbe, hse]
    · simp [buildSequence, check_call, ht, hbe]

/-- C9: a triggered application runs build, then stop, then start in that
order — the build-sequence trace is an infix of the application's trace;
the sequence succeeds exactly when the build finishes within the timeout with
exit 0 and stop and start exit 0; any failing step stops the sequence there
(fail-fast), and the timeout bound constrains only the build step: the stop
and start durations never affect the outcome. -/
theorem c9_build_stop_start :
    (∀ (ex : AppExec) (path : Str) (t : Nat),
      ((buildSequence ex path t).1 = true ↔
        (ex.buildRes.duration ≤ t ∧ ex.buildRes.exitCode = 0 ∧
         ex.stopRes.exitCode = 0 ∧ ex.startRes.exitCode = 0)) ∧
      ((t < ex.buildRes.duration ∨ ex.buildRes.exitCode ≠ 0) →
        buildSequence ex path t = (false, [Event.execBuild path])) ∧
      (ex.buildRes.duration ≤ t → ex.buildRes.exitCode = 0 → ex.stopRes.exitCode ≠ 0 →
        buildSequence ex path t = (false, [Event.execBuild path, Event.execStop path])) ∧
      (ex.buildRes.duration ≤ t → ex.buildRes.exitCode = 0 → ex.stopRes.exitCode = 0 →
        (buildSequence ex path t).2 =
          [Event.execBuild path, Event.execStop path, Event.execStart path]) ∧
      (∀ d1 d2 : Nat, buildSequence
          { ex with stopRes := { ex.stopRes with duration := d1 },
                    startRes := { ex.startRes with duration := d2 } } path t =
        buildSequence ex path t)) ∧
    (∀ (env : Env) (st : OrchSt) (app : DockerComposeApp),
      appTriggered env st app = true →
      ∃ pre post, (processApp env st app).2 = pre ++
        (buildSequence (env.execFor app.compose_file_path) app.compose_file_path
          app.build_timeout).2 ++ post) := by
  constructor
  · intro ex path t
    refine ⟨?_, ?_, ?_, ?_, ?_⟩
    · rw [buildSequence_eq]
      split_ifs <;> simp <;> omega
    · intro h
      rw [buildSequence_eq, if_pos h]
    · intro h1 h2 h3
      rw [buildSequence_eq, if_neg (by omega), if_pos h3]
    · intro h1 h2 h3
      rw [buildSequence_eq]
      split_ifs <;> first | rfl | (exfalso; omega)
    · intro d1 d2
      rw [buildSequence_eq, buildSequence_eq]
  · intro env st app htrig
    have hc : ((processImages env st.localImages false app.images_to_pull).2.1 ||
        decide (app.compose_file_path ∈ st.pending)) = true := htrig
    simp only [processApp, hc, if_true]
    by_cases hbs : (buildSequence (env.execFor app.compose_file_path)
        app.compose_file_path app.build_timeout).1 = true
    · rw [if_pos hbs]
      refine ⟨(processImages env st.localImages false app.images_to_pull).2.2 ++
        (markPending { st with localImages :=
          (processImages env st.localImages false app.images_to_pull).1 }
          app.compose_file_path).2,
        [Event.writeState ((markPending { st with localImages :=
          (processImages env st.localImages false app.images_to_pull).1 }
          app.compose_file_path).1.pending.erase app.compose_file_path)], ?_⟩
      simp [List.append_assoc]
    · rw [if_neg hbs]
      refine ⟨(processImages env st.localImages false app.images_to_pull).2.2 ++
        (markPending { st with localImages :=
          (processImages env st.localImages false app.images_to_pull).1 }
          app.compose_file_path).2, [], ?_⟩
      simp [List.append_assoc]

theorem c9_build_stop_start_witness :
    buildSequence exC9 "/a".data 100 =
      (false, [Event.execBuild "/a".data, Event.execStop "/a".data]) :=
  (c9_build_stop_start.1 exC9 "/a".data 100).2.2.1 (by decide) (by decide) (by decide)

theorem processImages_events (env : Env) :
    ∀ (imgs : List (Str × Str)) (cache : Str → Str → Option Str) (any : Bool),
      ∀ e ∈ (processImages env cache any imgs).2.2, ∃ n t u, e = Event.pullImage n t u := by
  intro imgs
  induction imgs with
  | nil => intro cache any e he; cases he
  | cons hd tl ih =>
    intro cache any e he
    obtain ⟨n, t⟩ := hd
    simp only [processImages] at he
    rcases List.mem_cons.mp he with rfl | hmem
    · exact ⟨n, t, _, rfl⟩
    · exact ih _ _ e hmem

/-- C8: an application whose pulls all report no change and whose compose
path is not pending performs no build, stop, start or state-file write — its
trace holds only pull events, and the pending set and filesystem are left
exactly as they were. -/
theorem c8_no_trigger_frame (env : Env) (st : OrchSt) (app : DockerComposeApp)
    (hupd : anyImagesUpdated env st app = false)
    (hpend : app.compose_file_path ∉ st.pending) :
    (processApp env st app).1.pending = st.pending ∧
    (∀ q, (processApp env st app).1.fs q = st.fs q) ∧
    (∀ e ∈ (processApp env st app).2, ∃ n t u, e = Event.pullImage n t u) := by
  have hc : ((processImages env st.localImages false app.images_to_pull).2.1 ||
      decide (app.compose_file_path ∈ st.pending)) = false := by
    have h1 : (processImages env st.localImages false app.images_to_pull).2.1 = false := hupd
    simp [h1, hpend]
  have hsplit : processApp env st app =
      ({ st with localImages := (processImages env st.localImages false app.images_to_pull).1 },
       (processImages env st.localImages false app.images_to_pull).2.2) := by
    simp only [processApp, hc, Bool.false_eq_true, if_false]
  rw [hsplit]
  exact ⟨rfl, fun q => rfl, fun e he => processImages_events env _ _ _ e he⟩

theorem c8_no_trigger_frame_witness :
    (processApp exEnv exStCached exApp).1.pending = exStCached.pending ∧
    (processApp exEnv exStCached exApp).1.fs prev_run_path =
      exStCached.fs prev_run_path :=
  ⟨(c8_no_trigger_frame exEnv exStCached exApp rfl (by simp [exStCached])).1,
   (c8_no_trigger_frame exEnv exStCached exApp rfl (by simp [exStCached])).2.1 prev_run_path⟩

theorem markPending_mem (st : OrchSt) (path : Str) (hp : path ∈ st.pending) :
    markPending st path = (st, []) := by
  simp [markPending, hp]

theorem markPending_not_mem (st : OrchSt) (path : Str) (hp : path ∉ st.pending) :
    markPending st path =
      ({ st with
          pending := st.pending ++ [path],
          fs := PreviousRunData.write st.fs prev_run_path (st.pending ++ [path]) },
       [Event.writeState (st.pending ++ [path])]) := by
  simp [markPending, setAdd, hp]

theorem nodup_append_singleton {l : List Str} {a : Str} (h : l.Nodup) (ha : a ∉ l) :
    (l ++ [a]).Nodup := by
  simp [List.nodup_append, h, ha]

theorem erase_append_singleton {l : List Str} {a : Str} (ha : a ∉ l) :
    (l ++ [a]).erase a = l := by
  rw [List.erase_append_right _ ha, List.erase_cons_head, List.append_nil]

theorem processApp_fst_not_triggered (env : Env) (st : OrchSt) (app : DockerComposeApp)
    (h : appTriggered env st app = false) :
    (processApp env st app).1 =
      { st with localImages := (processImages env st.localImages false app.images_to_pull).1 } := by
  have hc : ((processImages env st.localImages false app.images_to_pull).2.1 ||
      decide (app.compose_file_path ∈ st.pending)) = false := h
  simp only [processApp, hc, Bool.false_eq_true, if_false]

theorem processApp_fst_fail (env : Env) (st : OrchSt) (app : DockerComposeApp)
    (h : appTriggered env st app = true) (hbs : appBuildSuccess env app = false) :
    (processApp env st app).1 = postMark env st app := by
  have hc : ((processImages env st.localImages false app.images_to_pull).2.1 ||
      decide (app.compose_file_path ∈ st.pending)) = true := h
  have hb : (buildSequence (env.execFor app.compose_file_path) app.compose_file_path
      app.build_timeout).1 = false := hbs
  simp only [processApp]
  rw [if_pos hc, if_neg (by simp [hb])]
  rfl

theorem processApp_fst_success (env : Env) (st : OrchSt) (app : DockerComposeApp)
    (h : appTriggered env st app = true) (hbs : appBuildSuccess env app = true) :
    (processApp env st app).1 =
      { postMark env st app with
          pending := (postMark env st app).pending.erase app.compose_file_path,
          fs := PreviousRunData.write (postMark env st app).fs prev_run_path
            ((postMark env st app).pending.erase app.compose_file_path) } := by
  have hc : ((processImages env st.localImages false app.images_to_pull).2.1 ||
      decide (app.compose_file_path ∈ st.pending)) = true := h
  have hb : (buildSequence (env.execFor app.compose_file_path) app.compose_file_path
      app.build_timeout).1 = true := hbs
  simp only [processApp]
  rw [if_pos hc, if_pos hb]
  rfl

theorem postMark_mem (env : Env) (st : OrchSt) (app : DockerComposeApp)
    (hp : app.compose_file_path ∈ st.pending) :
    (postMark env st app).pending = st.pending ∧ (postMark env st app).fs = st.fs := by
  have h := markPending_mem
    { st with localImages := (processImages env st.localImages false app.images_to_pull).1 }
    app.compose_file_path hp
  rw [postMark, h]
  exact ⟨rfl, rfl⟩

theorem postMark_not_mem (env : Env) (st : OrchSt) (app : DockerComposeApp)
    (hp : app.compose_file_path ∉ st.pending) :
    (postMark env st app).pending = st.pending ++ [app.compose_file_path] ∧
    (postMark env st app).fs =
      PreviousRunData.write st.fs prev_run_path
        (st.pending ++ [app.compose_file_path]) := by
  have h := markPending_not_mem
    { st with localImages := (processImages env st.localImages false app.images_to_pull).1 }
    app.compose_file_path hp
  rw [postMark, h]
  exact ⟨rfl, rfl⟩

/-- C1: starting from a state where the persisted file matches the in-memory
pending set, processing one application leaves its compose path in the
pending set exactly when the application was triggered and the build attempt
failed; the invariant (file matches set, set duplicate-free) is preserved;
and when triggered, before the build/stop/start sequence is attempted the
path is already both in the set and in the persisted file. -/
theorem c1_pending_state_machine (env : Env) (st : OrchSt) (app : DockerComposeApp)
    (hinv : PendingInv st) :
    (app.compose_file_path ∈ (processApp env st app).1.pending ↔
      (appTriggered env st app = true ∧ appBuildSuccess env app = false)) ∧
    PendingInv (processApp env st app).1 ∧
    (appTriggered env st app = true →
      app.compose_file_path ∈ (postMark env st app).pending ∧
      app.compose_file_path ∈ ((postMark env st app).fs prev_run_path).getD []) := by
  obtain ⟨hnd, hmem⟩ := hinv
  by_cases htrig : appTriggered env st app = true
  · by_cases hp : app.compose_file_path ∈ st.pending
    · obtain ⟨hpd, hpf⟩ := postMark_mem env st app hp
      have hmark : app.compose_file_path ∈ (postMark env st app).pending ∧
          app.compose_file_path ∈ ((postMark env st app).fs prev_run_path).getD [] := by
        rw [hpd, hpf]
        exact ⟨hp, (hmem _).mp hp⟩
      by_cases hbs : appBuildSuccess env app = true
      · rw [processApp_fst_success env st app htrig hbs]
        refine ⟨?_, ⟨?_, ?_⟩, fun _ => hmark⟩
        · simp only [hpd]
          simp [List.Nodup.mem_erase_iff hnd, hbs]
        · simp only [hpd]
          exact hnd.erase _
        · intro x
          simp [PreviousRunData.write]
      · have hbsf : appBuildSuccess env app = false := by
          revert hbs; cases appBuildSuccess env app <;> simp
        rw [processApp_fst_fail env st app htrig hbsf]
        refine ⟨?_, ⟨?_, ?_⟩, fun _ => hmark⟩
        · rw [hpd]
          simp [hp, htrig, hbsf]
        · rw [hpd]; exact hnd
        · intro x
          rw [hpd, hpf]
          exact hmem x
    · obtain ⟨hpd, hpf⟩ := postMark_not_mem env st app hp
      have hmark : app.compose_file_path ∈ (postMark env st app).pending ∧
          app.compose_file_path ∈ ((postMark env st app).fs prev_run_path).getD [] := by
        rw [hpd, hpf]
        constructor
        · simp
        · simp [PreviousRunData.write]
      by_cases hbs : appBuildSuccess env app = true
      · rw [processApp_fst_success env st app htrig hbs]
        have herase : (postMark env st app).pending.erase app.compose_file_path =
            st.pending := by
          rw [hpd, erase_append_singleton hp]
        refine ⟨?_, ⟨?_, ?_⟩, fun _ => hmark⟩
        · rw [herase]
          simp [hp, hbs]
        · rw [herase]; exact hnd
        · intro x
          simp [PreviousRunData.write]
      · have hbsf : appBuildSuccess env app = false := by
          revert hbs; cases appBuildSuccess env app <;> simp
        rw [processApp_fst_fail env st app htrig hbsf]
        refine ⟨?_, ⟨?_, ?_⟩, fun _ => hmark⟩
        · rw [hpd]
          simp [htrig, hbsf]
        · rw [hpd]
          exact nodup_append_singleton hnd hp
        · intro x
          rw [hpd, hpf]
          simp [PreviousRunData.write]
  · have htrigf : appTriggered env st app = false := by
      revert htrig; cases appTriggered env st app <;> simp
    have hnp : app.compose_file_path ∉ st.pending := by
      have h2 := htrigf
      simp only [appTriggered, Bool.or_eq_false_iff, decide_eq_false_iff_not] at h2
      exact h2.2
    rw [processApp_fst_not_triggered env st app htrigf]
    refine ⟨?_, ⟨hnd, hmem⟩, ?_⟩
    · simp [htrigf, hnp]
    · intro hcontra
      rw [htrigf] at hcontra
      cases hcontra

theorem c1_pending_state_machine_witness :
    (exApp.compose_file_path ∈ (processApp exEnv exStEmpty exApp).1.pending ↔
      (appTriggered exEnv exStEmpty exApp = true ∧
       appBuildSuccess exEnv exApp = false)) ∧
    exApp.compose_file_path ∈ (postMark exEnv exStEmpty exApp).pending :=
  ⟨(c1_pending_state_machine exEnv exStEmpty exApp
      ⟨List.nodup_nil, by simp [exStEmpty]⟩).1,
   ((c1_pending_state_machine exEnv exStEmpty exApp
      ⟨List.nodup_nil, by simp [exStEmpty]⟩).2.2 rfl).1⟩
